import Mathlib

/-!
Shallow embedding of the mesh reorienter (src/main.rs).

The program parses a text mesh (point count, vertex lines, triangle count,
triangle lines), computes the centroid of the vertices, flips every triangle
whose normal does not point away from the centroid by swapping index
positions 1 and 2, and writes the mesh back out.

Modelling conventions:
* `f64` coordinates are modelled as exact rationals (`ℚ`); the claims under
  study are about the branching structure and data flow of the algorithm,
  which is exact-arithmetic over the plain decimal literals of the format.
  Division of a rational by zero yields `0` in Lean (the Rust code yields
  `NaN`); no claim below depends on the value produced by that division.
* Rust panics (`unwrap`/`expect` failures, out-of-bounds indexing,
  `Vec::swap` on a too-short vector) are modelled by `Option`, with `none`
  for the aborted run.
* `str::parse::<usize>` and `str::parse::<f64>` are modelled on the plain
  decimal grammar used by the mesh format (optional sign, digits, optional
  fractional part); exponent and inf/nan forms of the full float grammar do
  not occur in this format and are not modelled.
-/

/-- Counterpart of nalgebra Vector3 of f64, with exact rational components. -/
structure Vec3 where
  x : ℚ
  y : ℚ
  z : ℚ
deriving DecidableEq

/-- The zero vector, `Vec3::new(0.0, 0.0, 0.0)`. -/
def Vec3.zero : Vec3 := ⟨0, 0, 0⟩

/-- Componentwise addition (`+=` in `compute_centroid`). -/
def Vec3.add (a b : Vec3) : Vec3 := ⟨a.x + b.x, a.y + b.y, a.z + b.z⟩

/-- Componentwise subtraction. -/
def Vec3.sub (a b : Vec3) : Vec3 := ⟨a.x - b.x, a.y - b.y, a.z - b.z⟩

/-- The cross product `v1.cross(&v2)`. -/
def Vec3.cross (a b : Vec3) : Vec3 :=
  ⟨a.y * b.z - a.z * b.y, a.z * b.x - a.x * b.z, a.x * b.y - a.y * b.x⟩

/-- The dot product `norm_vec.dot(&centroid_to_triangle)`. -/
def Vec3.dot (a b : Vec3) : ℚ := a.x * b.x + a.y * b.y + a.z * b.z

/-- Componentwise division by a count (`centroid /= npoints as f64`).
Division by zero yields the zero vector in this rational model (the Rust
`f64` value would be NaN); no claim depends on this value. -/
def Vec3.divN (a : Vec3) (n : ℕ) : Vec3 := ⟨a.x / n, a.y / n, a.z / n⟩

/-- Sequential monadic map over `Option`: the effect of mapping a fallible
parse over an iterator and `collect`ing it — the first failure aborts. -/
def mapOption (f : α → Option β) : List α → Option (List β)
  | [] => some []
  | a :: as => do
    let b ← f a
    let bs ← mapOption f as
    pure (b :: bs)

/-- Sequential fold over `Option`: the effect of a Rust `for` loop whose
body can panic, threading an accumulator. -/
def foldlMOpt (f : σ → α → Option σ) : σ → List α → Option σ
  | s, [] => some s
  | s, a :: as => do
    let s2 ← f s a
    foldlMOpt f s2 as

/-- Embedding of `compute_centroid` (src/main.rs lines 127-134): sum
`points[i]` for `i in 0..npoints`, then divide by `npoints`.  Indexing out
of bounds (a Rust panic) is `none`; the division itself never fails. -/
def compute_centroid (points : List Vec3) (npoints : ℕ) : Option Vec3 := do
  let s ← foldlMOpt
    (fun acc i => do
      let p ← points[i]?
      pure (acc.add p))
    Vec3.zero (List.range npoints)
  pure (s.divN npoints)

/-- The orientation scalar computed inside
`compute_triangle_norm_vec_direction` (src/main.rs lines 154-158):
`d = ((P1 - P0) × (P2 - P0)) · (P0 - C)` for triangle indices
`triangle[0], triangle[1], triangle[2]`. -/
def orientationScalar (points : List Vec3) (triangle : List ℕ) (centroid : Vec3) :
    Option ℚ := do
  let i0 ← triangle[0]?
  let i1 ← triangle[1]?
  let i2 ← triangle[2]?
  let p0 ← points[i0]?
  let p1 ← points[i1]?
  let p2 ← points[i2]?
  let v1 := p1.sub p0
  let v2 := p2.sub p0
  let norm_vec := v1.cross v2
  let centroid_to_triangle := p0.sub centroid
  pure (norm_vec.dot centroid_to_triangle)

/-- Embedding of `compute_triangle_norm_vec_direction` (src/main.rs lines
153-161): returns `dot_prod > 0.0`. -/
def compute_triangle_norm_vec_direction (points : List Vec3) (triangle : List ℕ)
    (centroid : Vec3) : Option Bool :=
  (orientationScalar points triangle centroid).map (fun d => decide (0 < d))

/-- Embedding of `triangle.swap(1, 2)` (src/main.rs line 53): swaps vector
positions 1 and 2 in place; panics (`none`) when the vector has fewer than
three entries. -/
def swap12 : List ℕ → Option (List ℕ)
  | i0 :: i1 :: i2 :: rest => some (i0 :: i2 :: i1 :: rest)
  | _ => none

/-- One iteration of the correction loop in `main` (src/main.rs lines
50-55): leave the triangle alone when its normal points outwards, otherwise
swap index positions 1 and 2. -/
def correctTriangle (points : List Vec3) (centroid : Vec3) (triangle : List ℕ) :
    Option (List ℕ) := do
  let outwards ← compute_triangle_norm_vec_direction points triangle centroid
  if outwards then pure triangle else swap12 triangle

/-- The whole correction loop of `main` over the triangle list. -/
def correctTriangles (points : List Vec3) (centroid : Vec3)
    (triangle_specs : List (List ℕ)) : Option (List (List ℕ)) :=
  mapOption (correctTriangle points centroid) triangle_specs

/-- Whitespace tokenisation of a character list (`str::split_whitespace`):
maximal runs of non-whitespace characters, in order, empties skipped.
Implemented by a single right fold, pairing the finished tokens with the
token currently being built. -/
def tokenizeWS (cs : List Char) : List (List Char) :=
  let p := cs.foldr
    (fun c acc =>
      if c.isWhitespace then
        (if acc.2 = ([] : List Char) then acc.1 else acc.2 :: acc.1, ([] : List Char))
      else (acc.1, c :: acc.2))
    ([], [])
  if p.2 = ([] : List Char) then p.1 else p.2 :: p.1

/-- Split a character list at every occurrence of a separator, keeping empty
segments (the behaviour of `str::split` on a single-character pattern). -/
def splitOnChar (sep : Char) (cs : List Char) : List (List Char) :=
  cs.foldr
    (fun c acc =>
      if c = sep then [] :: acc
      else
        match acc with
        | t :: ts => (c :: t) :: ts
        | [] => [[c]])
    [[]]

/-- Value of a digit string, most significant digit first. -/
def digitsVal (cs : List Char) : ℕ :=
  cs.foldl (fun a c => a * 10 + (c.toNat - 48)) 0

/-- Parse a nonempty all-digit character list as a natural number. -/
def digitsToNat (cs : List Char) : Option ℕ :=
  if cs ≠ [] ∧ cs.all (fun c => c.isDigit) then some (digitsVal cs) else none

/-- Model of `str::parse::<usize>`: an optional leading plus sign followed by
decimal digits.  (Values are unbounded here; the claims involve no overflow.) -/
def parseUsizeChars (cs : List Char) : Option ℕ :=
  match cs with
  | c :: rest => if c = ('+') then digitsToNat rest else digitsToNat cs
  | [] => none

/-- Model of `str::parse::<f64>` on the plain decimal grammar of the mesh
format: optional sign, integer digits, optional fractional digits, at least
one digit overall.  The value is kept exact as a rational; exponent and
inf/nan forms of the full float grammar do not occur in the format. -/
def parseDecimalChars (cs : List Char) : Option ℚ :=
  let sign : ℚ := if cs.head? = some ('-') then -1 else 1
  let t := if cs.head? = some ('-') ∨ cs.head? = some ('+') then cs.drop 1 else cs
  match splitOnChar ('.') t with
  | [ipart] => (digitsToNat ipart).map (fun n => sign * (n : ℚ))
  | [ipart, fpart] =>
    if ipart = [] ∧ fpart = [] then none
    else do
      let ip ← if ipart = [] then pure 0 else digitsToNat ipart
      let fp ← if fpart = [] then pure 0 else digitsToNat fpart
      pure (sign * ((ip : ℚ) + (fp : ℚ) / (10 : ℚ) ^ fpart.length))
  | _ => none

/-- Tokens of one input line. -/
def splitWhitespaceTokens (s : String) : List (List Char) :=
  tokenizeWS s.data

/-- Model of `str::parse::<usize>` on a line-level `String`. -/
def parseUsize (s : String) : Option ℕ :=
  parseUsizeChars s.data

/-- Parsing of one vertex line (src/main.rs lines 89-95): take the first
three whitespace tokens, parse each as a real number; any missing token or
failed parse is an `unwrap` panic (`none`).  Extra tokens are ignored. -/
def parseVertexLine (line : String) : Option Vec3 := do
  let coords := splitWhitespaceTokens line
  let xs ← coords[0]?
  let x ← parseDecimalChars xs
  let ys ← coords[1]?
  let y ← parseDecimalChars ys
  let zs ← coords[2]?
  let z ← parseDecimalChars zs
  pure ⟨x, y, z⟩

/-- Parsing of one triangle line (src/main.rs lines 101-106): every
whitespace token is parsed as an index; a failed parse panics (`none`). -/
def parseTriangleLine (line : String) : Option (List ℕ) :=
  mapOption parseUsizeChars (splitWhitespaceTokens line)

/-- Embedding of `parse_input` (src/main.rs lines 78-110) over the list of
input lines: first line is the point count, the next `n_points` lines are
taken as vertices, the following line is the triangle count, and all
remaining lines are parsed as triangles. -/
def parse_input (lines : List String) : Option (ℕ × List Vec3 × ℕ × List (List ℕ)) := do
  let l0 ← lines[0]?
  let n_points ← parseUsize l0
  let rest := lines.drop 1
  let point_coords ← mapOption parseVertexLine (rest.take n_points)
  let rest2 := rest.drop n_points
  let l1 ← rest2[0]?
  let n_triangles ← parseUsize l1
  let triangle_specs ← mapOption parseTriangleLine (rest2.drop 1)
  pure (n_points, point_coords, n_triangles, triangle_specs)

/-- Round the fraction `a / b` of naturals to the nearest integer, ties to
even — the rounding used by Rust's fixed-precision float formatting on
exactly representable values. -/
def roundHalfEvenDiv (a b : ℕ) : ℕ :=
  let n0 := a / b
  let r := a % b
  if b < 2 * r then n0 + 1
  else if 2 * r < b then n0
  else if n0 % 2 = 0 then n0 else n0 + 1

/-- Left-pad a digit string with zeros up to the requested width. -/
def padZeros (s : String) (len : ℕ) : String :=
  String.mk (List.replicate (len - s.length) ('0')) ++ s

/-- Model of `format!("{:.*}", precision, v)`: fixed-point decimal rendering
of a rational with exactly `precision` fractional digits (none, and no dot,
when `precision = 0`), computed on the reduced numerator and denominator. -/
def formatFixed (precision : ℕ) (q : ℚ) : String :=
  let sgn := if q.num < 0 then ("-") else ("")
  let n := roundHalfEvenDiv (q.num.natAbs * 10 ^ precision) q.den
  let ipart := n / 10 ^ precision
  let fpart := n % 10 ^ precision
  if precision = 0 then sgn ++ toString ipart
  else sgn ++ toString ipart ++ "." ++ padZeros (toString fpart) precision

/-- One vertex line as pushed by the loop in `write_output` (src/main.rs
lines 168-175).  This reproduces the source exactly: it pushes
`point_coords[i].x` three times per line; the `y` and `z` components never
appear in the source's format calls. -/
def vertexLineOut (precision : ℕ) (p : Vec3) : String :=
  formatFixed precision p.x ++ " " ++ formatFixed precision p.x ++ " "
    ++ formatFixed precision p.x ++ "\n"

/-- One triangle line as pushed by the loop in `write_output` (src/main.rs
lines 178-185): entries 0, 1 and 2 of the triangle, space-separated; an
out-of-bounds entry access panics (`none`). -/
def triangleLineOut (t : List ℕ) : Option String := do
  let a ← t[0]?
  let b ← t[1]?
  let c ← t[2]?
  pure (toString a ++ " " ++ toString b ++ " " ++ toString c ++ "\n")

/-- A `for i in 0..n`-style loop that appends the line produced for each
index to the accumulated output, propagating panics. -/
def appendLinesOpt (g : ℕ → Option String) : String → List ℕ → Option String :=
  foldlMOpt (fun s i => (g i).bind (fun line => some (s ++ line)))

/-- Embedding of `write_output` (src/main.rs lines 164-188): the point
count, `n_points` vertex lines for indices `0..n_points`, the triangle
count, then `n_triangles` triangle lines for indices `0..n_triangles`;
any out-of-bounds index access panics (`none`). -/
def write_output (n_points : ℕ) (point_coords : List Vec3) (n_triangles : ℕ)
    (triangle_specs : List (List ℕ)) (precision : ℕ) : Option String := do
  let s0 := toString n_points ++ "\n"
  let s1 ← appendLinesOpt
    (fun i => (point_coords[i]?).bind (fun p => some (vertexLineOut precision p)))
    s0 (List.range n_points)
  let s2 := s1 ++ toString n_triangles ++ "\n"
  let s3 ← appendLinesOpt
    (fun i => (triangle_specs[i]?).bind triangleLineOut)
    s2 (List.range n_triangles)
  pure s3

/-- The computational pipeline of `main` (src/main.rs lines 37-57), from the
input's line list and the precision argument to the output text: parse,
compute the centroid, correct every triangle, write. -/
def runPipeline (lines : List String) (precision : ℕ) : Option String := do
  let (n_points, point_coords, n_triangles, triangle_specs) ← parse_input lines
  let centroid ← compute_centroid point_coords n_points
  let corrected ← correctTriangles point_coords centroid triangle_specs
  write_output n_points point_coords n_triangles corrected precision

/-! ## Helper lemmas about the embedding combinators -/

theorem mapOption_nil {α β : Type} (f : α → Option β) : mapOption f [] = some [] := rfl

theorem mapOption_cons {α β : Type} (f : α → Option β) (a : α) (as : List α) :
    mapOption f (a :: as)
      = (f a).bind (fun b => (mapOption f as).bind (fun bs => some (b :: bs))) := rfl

theorem mapOption_length {α β : Type} (f : α → Option β) :
    ∀ (l : List α) (l2 : List β), mapOption f l = some l2 → l2.length = l.length := by
  intro l
  induction l with
  | nil => intro l2 h; rw [mapOption_nil] at h; simp [← Option.some_inj.mp h]
  | cons a as ih =>
    intro l2 h
    rw [mapOption_cons] at h
    cases hfa : f a with
    | none => rw [hfa] at h; simp at h
    | some b =>
      rw [hfa] at h
      cases hbs : mapOption f as with
      | none => rw [hbs] at h; simp at h
      | some bs =>
        rw [hbs] at h
        simp at h
        simp [← h, ih bs hbs]

theorem mapOption_get {α β : Type} (f : α → Option β) :
    ∀ (l : List α) (l2 : List β), mapOption f l = some l2 →
      ∀ (i : ℕ) (a : α), l[i]? = some a → ∃ b, l2[i]? = some b ∧ f a = some b := by
  intro l
  induction l with
  | nil => intro l2 _ i a ha; simp at ha
  | cons x xs ih =>
    intro l2 h i a ha
    rw [mapOption_cons] at h
    cases hfx : f x with
    | none => rw [hfx] at h; simp at h
    | some b =>
      rw [hfx] at h
      cases hbs : mapOption f xs with
      | none => rw [hbs] at h; simp at h
      | some bs =>
        rw [hbs] at h
        simp at h
        cases i with
        | zero =>
          simp at ha
          exact ⟨b, by simp [← h], ha ▸ hfx⟩
        | succ j =>
          simp at ha
          obtain ⟨b2, hb2, hfb2⟩ := ih bs hbs j a ha
          exact ⟨b2, by simp [← h, hb2], hfb2⟩

theorem mapOption_get_rev {α β : Type} (f : α → Option β) :
    ∀ (l : List α) (l2 : List β), mapOption f l = some l2 →
      ∀ (i : ℕ) (b : β), l2[i]? = some b → ∃ a, l[i]? = some a ∧ f a = some b := by
  intro l
  induction l with
  | nil =>
    intro l2 h i b hb
    rw [mapOption_nil] at h
    simp [← Option.some_inj.mp h] at hb
  | cons x xs ih =>
    intro l2 h i b hb
    rw [mapOption_cons] at h
    cases hfx : f x with
    | none => rw [hfx] at h; simp at h
    | some y =>
      rw [hfx] at h
      cases hys : mapOption f xs with
      | none => rw [hys] at h; simp at h
      | some ys =>
        rw [hys] at h
        simp at h
        cases i with
        | zero =>
          rw [← h] at hb
          simp at hb
          exact ⟨x, by simp, hb ▸ hfx⟩
        | succ j =>
          rw [← h] at hb
          simp at hb
          obtain ⟨a, ha, hfa⟩ := ih ys hys j b hb
          exact ⟨a, by simp [ha], hfa⟩

theorem mapOption_isSome {α β : Type} (f : α → Option β) :
    ∀ l : List α, (∀ a ∈ l, (f a).isSome) → ∃ l2, mapOption f l = some l2 := by
  intro l
  induction l with
  | nil => intro _; exact ⟨[], rfl⟩
  | cons x xs ih =>
    intro h
    obtain ⟨y, hy⟩ := Option.isSome_iff_exists.mp (h x (by simp))
    obtain ⟨ys, hys⟩ := ih (fun a ha => h a (by simp [ha]))
    exact ⟨y :: ys, by rw [mapOption_cons, hy, hys]; rfl⟩

theorem foldlMOpt_nil {σ α : Type} (f : σ → α → Option σ) (s : σ) :
    foldlMOpt f s [] = some s := rfl

theorem foldlMOpt_cons {σ α : Type} (f : σ → α → Option σ) (s : σ) (a : α) (as : List α) :
    foldlMOpt f s (a :: as) = (f s a).bind (fun s2 => foldlMOpt f s2 as) := rfl

theorem foldlMOpt_append {σ α : Type} (f : σ → α → Option σ) :
    ∀ (l1 l2 : List α) (s : σ),
      foldlMOpt f s (l1 ++ l2) = (foldlMOpt f s l1).bind (fun s2 => foldlMOpt f s2 l2) := by
  intro l1
  induction l1 with
  | nil => intro l2 s; simp [foldlMOpt_nil]
  | cons a as ih =>
    intro l2 s
    rw [List.cons_append, foldlMOpt_cons, foldlMOpt_cons]
    cases f s a with
    | none => simp
    | some s2 => simp [ih l2 s2]

/-! ## Helper lemmas about the orientation computation -/

theorem orientationScalar_cons (points : List Vec3) (i0 i1 i2 : ℕ) (rest : List ℕ)
    (c P0 P1 P2 : Vec3) (h0 : points[i0]? = some P0) (h1 : points[i1]? = some P1)
    (h2 : points[i2]? = some P2) :
    orientationScalar points (i0 :: i1 :: i2 :: rest) c
      = some (((P1.sub P0).cross (P2.sub P0)).dot (P0.sub c)) := by
  simp [orientationScalar, h0, h1, h2]

theorem orientationScalar_some_inv (points : List Vec3) (t : List ℕ) (c : Vec3) (d : ℚ)
    (h : orientationScalar points t c = some d) :
    ∃ i0 i1 i2 rest P0 P1 P2, t = i0 :: i1 :: i2 :: rest ∧
      points[i0]? = some P0 ∧ points[i1]? = some P1 ∧ points[i2]? = some P2 ∧
      d = ((P1.sub P0).cross (P2.sub P0)).dot (P0.sub c) := by
  match t with
  | [] => simp [orientationScalar] at h
  | [a] => simp [orientationScalar] at h
  | [a, b] => simp [orientationScalar] at h
  | i0 :: i1 :: i2 :: rest =>
    cases h0 : points[i0]? with
    | none => simp [orientationScalar, h0] at h
    | some P0 =>
      cases h1 : points[i1]? with
      | none => simp [orientationScalar, h0, h1] at h
      | some P1 =>
        cases h2 : points[i2]? with
        | none => simp [orientationScalar, h0, h1, h2] at h
        | some P2 =>
          refine ⟨i0, i1, i2, rest, P0, P1, P2, rfl, h0, h1, h2, ?_⟩
          rw [orientationScalar_cons points i0 i1 i2 rest c P0 P1 P2 h0 h1 h2] at h
          exact (Option.some_inj.mp h).symm

theorem orientationScalar_swap (points : List Vec3) (i0 i1 i2 : ℕ) (rest : List ℕ)
    (c : Vec3) (d : ℚ) (h : orientationScalar points (i0 :: i1 :: i2 :: rest) c = some d) :
    orientationScalar points (i0 :: i2 :: i1 :: rest) c = some (-d) := by
  obtain ⟨j0, j1, j2, rest2, P0, P1, P2, heq, h0, h1, h2, hd⟩ :=
    orientationScalar_some_inv points (i0 :: i1 :: i2 :: rest) c d h
  injection heq with e0 heq; injection heq with e1 heq; injection heq with e2 _
  subst e0; subst e1; subst e2
  rw [orientationScalar_cons points i0 i2 i1 rest c P0 P2 P1 h0 h2 h1, hd]
  congr 1
  simp only [Vec3.cross, Vec3.sub, Vec3.dot]
  ring

theorem correctTriangle_of_scalar (points : List Vec3) (c : Vec3) (i0 i1 i2 : ℕ)
    (rest : List ℕ) (d : ℚ)
    (h : orientationScalar points (i0 :: i1 :: i2 :: rest) c = some d) :
    correctTriangle points c (i0 :: i1 :: i2 :: rest)
      = some (if 0 < d then i0 :: i1 :: i2 :: rest else i0 :: i2 :: i1 :: rest) := by
  by_cases hd : 0 < d <;>
    simp [correctTriangle, compute_triangle_norm_vec_direction, h, swap12, hd]

theorem correctTriangle_some_scalar (points : List Vec3) (c : Vec3) (t t2 : List ℕ)
    (h : correctTriangle points c t = some t2) :
    ∃ d, orientationScalar points t c = some d := by
  cases hs : orientationScalar points t c with
  | none => simp [correctTriangle, compute_triangle_norm_vec_direction, hs] at h
  | some d => exact ⟨d, rfl⟩

theorem correctTriangle_unchanged_or_swapped (points : List Vec3) (c : Vec3) (t t2 : List ℕ)
    (h : correctTriangle points c t = some t2) :
    t2 = t ∨ swap12 t = some t2 := by
  obtain ⟨d, hs⟩ := correctTriangle_some_scalar points c t t2 h
  obtain ⟨i0, i1, i2, rest, P0, P1, P2, heq, -, -, -, -⟩ :=
    orientationScalar_some_inv points t c d hs
  subst heq
  rw [correctTriangle_of_scalar points c i0 i1 i2 rest d hs] at h
  by_cases hd : 0 < d
  · left; simp [hd] at h; exact h.symm
  · right; simp [hd] at h; simp [swap12, h]

/-! ## Claim theorems: orientation decision (C3), winding invariance (C5),
idempotence (C4) -/

/-- C3: for every triangle `(i0, i1, i2)` with in-bounds indices, the
corrector computes `d = ((P1 - P0) × (P2 - P0)) · (P0 - C)` and leaves the
triangle unchanged exactly when `d > 0`; when `d ≤ 0` (including `d = 0`)
it swaps index positions 1 and 2 and makes no other change. -/
theorem c3_orientation_decision (points : List Vec3) (c : Vec3) (i0 i1 i2 : ℕ)
    (P0 P1 P2 : Vec3) (h0 : points[i0]? = some P0) (h1 : points[i1]? = some P1)
    (h2 : points[i2]? = some P2) :
    correctTriangle points c [i0, i1, i2]
      = some (if 0 < ((P1.sub P0).cross (P2.sub P0)).dot (P0.sub c)
              then [i0, i1, i2] else [i0, i2, i1]) :=
  correctTriangle_of_scalar points c i0 i1 i2 [] _
    (orientationScalar_cons points i0 i1 i2 [] c P0 P1 P2 h0 h1 h2)

/-- Witness for C3: the spec's own example (tetrahedron, triangle (0,1,2),
centroid (1/4, 1/4, 1/4)) has d = 1/4 > 0, hence no flip. -/
theorem c3_orientation_decision_witness :
    correctTriangle [⟨0, 0, 0⟩, ⟨0, 0, 1⟩, ⟨0, 1, 0⟩, ⟨1, 0, 0⟩] ⟨1/4, 1/4, 1/4⟩ [0, 1, 2]
      = some [0, 1, 2] := by
  have h := c3_orientation_decision [⟨0, 0, 0⟩, ⟨0, 0, 1⟩, ⟨0, 1, 0⟩, ⟨1, 0, 0⟩]
    ⟨1/4, 1/4, 1/4⟩ 0 1 2 ⟨0, 0, 0⟩ ⟨0, 0, 1⟩ ⟨0, 1, 0⟩ (by rfl) (by rfl) (by rfl)
  rw [h]
  norm_num [Vec3.cross, Vec3.sub, Vec3.dot]

/-- C5: for a non-degenerate triangle (d ≠ 0), feeding either winding
produces the same corrected index order, and the orientation scalar of the
result is positive. -/
theorem c5_winding_invariance (points : List Vec3) (c : Vec3) (i0 i1 i2 : ℕ) (d : ℚ)
    (h : orientationScalar points [i0, i1, i2] c = some d) (hd : d ≠ 0) :
    ∃ r d2, correctTriangle points c [i0, i1, i2] = some r ∧
      correctTriangle points c [i0, i2, i1] = some r ∧
      orientationScalar points r c = some d2 ∧ 0 < d2 := by
  have hswap := orientationScalar_swap points i0 i1 i2 [] c d h
  by_cases hpos : 0 < d
  · refine ⟨[i0, i1, i2], d, ?_, ?_, h, hpos⟩
    · rw [correctTriangle_of_scalar points c i0 i1 i2 [] d h]
      simp [hpos]
    · rw [correctTriangle_of_scalar points c i0 i2 i1 [] (-d) hswap]
      simp [show ¬(0 < -d) by linarith]
  · have hneg : d < 0 := lt_of_le_of_ne (not_lt.mp hpos) hd
    refine ⟨[i0, i2, i1], -d, ?_, ?_, hswap, by linarith⟩
    · rw [correctTriangle_of_scalar points c i0 i1 i2 [] d h]
      simp [hpos]
    · rw [correctTriangle_of_scalar points c i0 i2 i1 [] (-d) hswap]
      simp [show 0 < -d by linarith]

/-- Witness for C5: on the tetrahedron both windings of triangle (0,1,2)
correct to the same list. -/
theorem c5_winding_invariance_witness :
    correctTriangle [⟨0, 0, 0⟩, ⟨0, 0, 1⟩, ⟨0, 1, 0⟩, ⟨1, 0, 0⟩] ⟨1/4, 1/4, 1/4⟩ [0, 1, 2]
      = correctTriangle [⟨0, 0, 0⟩, ⟨0, 0, 1⟩, ⟨0, 1, 0⟩, ⟨1, 0, 0⟩] ⟨1/4, 1/4, 1/4⟩ [0, 2, 1] := by
  obtain ⟨r, d2, hA, hB, -, -⟩ := c5_winding_invariance
    [⟨0, 0, 0⟩, ⟨0, 0, 1⟩, ⟨0, 1, 0⟩, ⟨1, 0, 0⟩] ⟨1/4, 1/4, 1/4⟩ 0 1 2 (1/4)
    (by simp [orientationScalar, Vec3.cross, Vec3.sub, Vec3.dot])
    (by norm_num)
  rw [hA, hB]

/-- Applying the per-triangle correction a second time: nothing changes when
the original orientation scalar is nonzero, and the degenerate d = 0
triangle is swapped again. -/
theorem correctTriangle_twice (points : List Vec3) (c : Vec3) (t t1 : List ℕ) (d : ℚ)
    (hs : orientationScalar points t c = some d)
    (h1 : correctTriangle points c t = some t1) :
    (d ≠ 0 → correctTriangle points c t1 = some t1) ∧
    (d = 0 → correctTriangle points c t1 = swap12 t1) := by
  obtain ⟨i0, i1, i2, rest, P0, P1, P2, heq, -, -, -, -⟩ :=
    orientationScalar_some_inv points t c d hs
  subst heq
  rw [correctTriangle_of_scalar points c i0 i1 i2 rest d hs] at h1
  have hswap := orientationScalar_swap points i0 i1 i2 rest c d hs
  by_cases hpos : 0 < d
  · simp [hpos] at h1
    constructor
    · intro _
      rw [← h1, correctTriangle_of_scalar points c i0 i1 i2 rest d hs]
      simp [hpos]
    · intro h0d
      rw [h0d] at hpos
      exact absurd hpos (by norm_num)
  · simp [hpos] at h1
    constructor
    · intro hne
      have hneg : d < 0 := lt_of_le_of_ne (not_lt.mp hpos) hne
      rw [← h1, correctTriangle_of_scalar points c i0 i2 i1 rest (-d) hswap]
      simp [show 0 < -d by linarith]
    · intro h0d
      subst h0d
      rw [← h1, correctTriangle_of_scalar points c i0 i2 i1 rest (-0) hswap]
      simp [swap12]

/-- C4: applying the correction pass twice yields the same triangle list as
applying it once, except that a triangle whose orientation scalar is
exactly zero is index-swapped again on the second pass. -/
theorem c4_correction_idempotent (points : List Vec3) (c : Vec3)
    (ts ts1 ts2 : List (List ℕ)) (_hne : points ≠ [])
    (h1 : correctTriangles points c ts = some ts1)
    (h2 : correctTriangles points c ts1 = some ts2) :
    ts1.length = ts.length ∧ ts2.length = ts1.length ∧
    ∀ (i : ℕ) (t t1 : List ℕ), ts[i]? = some t → ts1[i]? = some t1 →
      ∃ d, orientationScalar points t c = some d ∧
        (d ≠ 0 → ts2[i]? = some t1) ∧
        (d = 0 → ts2[i]? = swap12 t1) := by
  refine ⟨mapOption_length _ ts ts1 h1, mapOption_length _ ts1 ts2 h2, ?_⟩
  intro i t t1 hti ht1i
  obtain ⟨t1b, ht1b, hct⟩ := mapOption_get _ ts ts1 h1 i t hti
  rw [ht1i] at ht1b
  have het1 : t1b = t1 := Option.some_inj.mp ht1b.symm
  subst het1
  obtain ⟨d, hs⟩ := correctTriangle_some_scalar points c t t1b hct
  obtain ⟨t2, ht2, hct2⟩ := mapOption_get _ ts1 ts2 h2 i t1b ht1i
  have htw := correctTriangle_twice points c t t1b d hs hct
  refine ⟨d, hs, ?_, ?_⟩
  · intro hdne
    rw [htw.1 hdne] at hct2
    rw [ht2, Option.some_inj.mp hct2]
  · intro hd0
    rw [ht2, ← hct2, ← htw.2 hd0]

/-- Witness for C4: on the tetrahedron the inward-wound triangle (0,2,1)
has d = -1/4 ≠ 0; it is flipped once and the second pass leaves it alone. -/
theorem c4_correction_idempotent_witness :
    correctTriangles [⟨0, 0, 0⟩, ⟨0, 0, 1⟩, ⟨0, 1, 0⟩, ⟨1, 0, 0⟩] ⟨1/4, 1/4, 1/4⟩ [[0, 2, 1]]
      = some [[0, 1, 2]] ∧
    (([[0, 1, 2]] : List (List ℕ)))[0]? = some [0, 1, 2] := by
  have heval1 : correctTriangles [⟨0, 0, 0⟩, ⟨0, 0, 1⟩, ⟨0, 1, 0⟩, ⟨1, 0, 0⟩]
      ⟨1/4, 1/4, 1/4⟩ [[0, 2, 1]] = some [[0, 1, 2]] := by
    norm_num [correctTriangles, mapOption, correctTriangle,
      compute_triangle_norm_vec_direction, orientationScalar, Vec3.cross, Vec3.sub,
      Vec3.dot, swap12]
  have heval2 : correctTriangles [⟨0, 0, 0⟩, ⟨0, 0, 1⟩, ⟨0, 1, 0⟩, ⟨1, 0, 0⟩]
      ⟨1/4, 1/4, 1/4⟩ [[0, 1, 2]] = some [[0, 1, 2]] := by
    simp [correctTriangles, mapOption, correctTriangle,
      compute_triangle_norm_vec_direction, orientationScalar, Vec3.cross, Vec3.sub,
      Vec3.dot, swap12]
  obtain ⟨-, -, h3⟩ := c4_correction_idempotent
    [⟨0, 0, 0⟩, ⟨0, 0, 1⟩, ⟨0, 1, 0⟩, ⟨1, 0, 0⟩] ⟨1/4, 1/4, 1/4⟩
    [[0, 2, 1]] [[0, 1, 2]] [[0, 1, 2]] (by simp) heval1 heval2
  obtain ⟨d, hd, hdne, -⟩ := h3 0 [0, 2, 1] [0, 1, 2] (by rfl) (by rfl)
  have he : orientationScalar [⟨0, 0, 0⟩, ⟨0, 0, 1⟩, ⟨0, 1, 0⟩, ⟨1, 0, 0⟩] [0, 2, 1]
      ⟨1/4, 1/4, 1/4⟩ = some (-(1/4)) := by
    norm_num [orientationScalar, Vec3.cross, Vec3.sub, Vec3.dot]
  rw [he] at hd
  refine ⟨heval1, hdne ?_⟩
  rw [← Option.some_inj.mp hd]
  norm_num

/-! ## Claim theorem: centroid (C6) -/

/-- The summation loop of `compute_centroid`, evaluated: while the index
stays in bounds it accumulates the componentwise sum of the first `n`
points. -/
theorem centroid_fold (points : List Vec3) :
    ∀ n : ℕ, n ≤ points.length → ∀ acc : Vec3,
      foldlMOpt (fun acc i => (points[i]?).bind (fun p => some (acc.add p))) acc
          (List.range n)
        = some ⟨acc.x + ((points.take n).map Vec3.x).sum,
                acc.y + ((points.take n).map Vec3.y).sum,
                acc.z + ((points.take n).map Vec3.z).sum⟩ := by
  intro n
  induction n with
  | zero => intro _ acc; simp [foldlMOpt_nil]
  | succ m ih =>
    intro hle acc
    have hm : m < points.length := Nat.lt_of_lt_of_le (Nat.lt_succ_self m) hle
    rw [List.range_succ, foldlMOpt_append, ih (Nat.le_of_lt hm) acc]
    rw [Option.some_bind, foldlMOpt_cons, List.getElem?_eq_getElem hm]
    rw [Option.some_bind, Option.some_bind, foldlMOpt_nil]
    have htake : points.take (m + 1) = points.take m ++ [points[m]] := by
      rw [List.take_succ, List.getElem?_eq_getElem hm]; rfl
    rw [htake]
    simp only [List.map_append, List.sum_append, List.map_cons, List.map_nil,
      List.sum_cons, List.sum_nil, Vec3.add]
    refine congrArg some ?_
    refine Vec3.mk.injEq .. ▸ ?_
    exact ⟨by ring, by ring, by ring⟩

/-- Evaluation of `compute_centroid` on the full vertex list: the
componentwise sum divided by the count. -/
theorem compute_centroid_spec (points : List Vec3) :
    compute_centroid points points.length
      = some ⟨((points.map Vec3.x).sum) / points.length,
              ((points.map Vec3.y).sum) / points.length,
              ((points.map Vec3.z).sum) / points.length⟩ := by
  have h := centroid_fold points points.length le_rfl Vec3.zero
  simp only [compute_centroid, Option.bind_eq_bind, Option.pure_def]
  rw [h]
  simp [Vec3.zero, Vec3.divN, List.take_length]

/-- C6: for every non-empty vertex list of N vertices, `compute_centroid`
returns the componentwise arithmetic mean (sum of vertices divided by N). -/
theorem c6_centroid_mean (points : List Vec3) (_hne : points ≠ []) :
    compute_centroid points points.length
      = some ⟨((points.map Vec3.x).sum) / points.length,
              ((points.map Vec3.y).sum) / points.length,
              ((points.map Vec3.z).sum) / points.length⟩ :=
  compute_centroid_spec points

/-- Witness for C6: the spec's example, four points with centroid
(1/4, 1/4, 1/4). -/
theorem c6_centroid_mean_witness :
    compute_centroid [⟨0, 0, 0⟩, ⟨0, 0, 1⟩, ⟨0, 1, 0⟩, ⟨1, 0, 0⟩] 4
      = some ⟨1/4, 1/4, 1/4⟩ := by
  have h := c6_centroid_mean [⟨0, 0, 0⟩, ⟨0, 0, 1⟩, ⟨0, 1, 0⟩, ⟨1, 0, 0⟩] (by simp)
  simp only [List.length_cons, List.length_nil] at h
  rw [show (0 + 1 + 1 + 1 + 1 : ℕ) = 4 from rfl] at h
  rw [h]
  norm_num

/-! ## Claim theorems: parsing (C7, C8) -/

/-- C7: the loader reads the first line as point count P, consumes exactly
the next P lines as vertices, reads the following line as triangle count,
and consumes all remaining lines as triangles — without requiring the
number of remaining lines to equal the declared triangle count. -/
theorem c7_parse_consumes (pLine tLine : String) (vLines more : List String)
    (P T : ℕ) (vs : List Vec3) (tris : List (List ℕ))
    (hP : parseUsize pLine = some P) (hlen : vLines.length = P)
    (hv : mapOption parseVertexLine vLines = some vs)
    (hT : parseUsize tLine = some T)
    (ht : mapOption parseTriangleLine more = some tris) :
    parse_input (pLine :: (vLines ++ tLine :: more)) = some (P, vs, T, tris) ∧
    tris.length = more.length := by
  refine ⟨?_, mapOption_length _ more tris ht⟩
  have htake : (vLines ++ tLine :: more).take P = vLines := by
    rw [← hlen]; exact List.take_left vLines (tLine :: more)
  have hdrop : (vLines ++ tLine :: more).drop P = tLine :: more := by
    rw [← hlen]; exact List.drop_left vLines (tLine :: more)
  simp only [parse_input, Option.bind_eq_bind, Option.pure_def,
    List.getElem?_cons_zero, Option.some_bind, hP, List.drop_succ_cons,
    List.drop_zero, htake, hv, hdrop, hT, ht]

/-- Witness for C7: a file declaring 1 point and 5 triangles but carrying a
single trailing triangle line parses, with the whole single remaining line
consumed and the declared count 5 left as is. -/
theorem c7_parse_consumes_witness :
    parse_input ["1", "0 0 0", "5", "0 1 2"]
      = some (1, [⟨(1 : ℚ) * ((0 : ℕ) : ℚ), (1 : ℚ) * ((0 : ℕ) : ℚ), (1 : ℚ) * ((0 : ℕ) : ℚ)⟩],
          5, [[0, 1, 2]]) ∧
    ([[0, 1, 2]] : List (List ℕ)).length = (["0 1 2"] : List String).length := by
  exact c7_parse_consumes "1" "5" ["0 0 0"] ["0 1 2"] 1 5
    [⟨(1 : ℚ) * ((0 : ℕ) : ℚ), (1 : ℚ) * ((0 : ℕ) : ℚ), (1 : ℚ) * ((0 : ℕ) : ℚ)⟩]
    [[0, 1, 2]] (by rfl) (by rfl) (by rfl) (by rfl) (by rfl)

/-- C8: when the declared point count exceeds the number of lines actually
present after the header, loading fails and produces no mesh — it never
truncates the vertex list to the lines available. -/
theorem c8_truncated_rejected (lines : List String) (l0 : String) (P : ℕ)
    (h0 : lines[0]? = some l0) (hP : parseUsize l0 = some P)
    (hshort : lines.length - 1 < P) :
    parse_input lines = none := by
  cases lines with
  | nil => simp at h0
  | cons a rest =>
    have ha : a = l0 := by simpa using h0
    subst ha
    have hrest : rest.length < P := by simpa using hshort
    have hdrop : rest.drop P = [] := List.drop_eq_nil_of_le (le_of_lt hrest)
    cases hm : mapOption parseVertexLine (rest.take P) with
    | none =>
      simp only [parse_input, Option.bind_eq_bind, Option.pure_def,
        List.getElem?_cons_zero, Option.some_bind, hP, List.drop_succ_cons,
        List.drop_zero, hm, Option.none_bind]
    | some vs =>
      simp only [parse_input, Option.bind_eq_bind, Option.pure_def,
        List.getElem?_cons_zero, Option.some_bind, hP, List.drop_succ_cons,
        List.drop_zero, hm, hdrop, List.getElem?_nil, Option.none_bind]

/-- Witness for C8: a file declaring 2 points but carrying one line after
the header is rejected. -/
theorem c8_truncated_rejected_witness :
    parse_input ["2", "0 0 0"] = none :=
  c8_truncated_rejected ["2", "0 0 0"] "2" 2 (by rfl) (by rfl) (by norm_num)

/-! ## Claim theorem: frame effect of the correction pass (C9) -/

/-- C9: the pipeline of `main` passes the parsed point count, vertex list
and triangle count unchanged from load to write; only the triangle list is
replaced, and each of its entries is either unchanged or has positions 1
and 2 swapped in place. -/
theorem c9_correction_frame (lines : List String) (precision P T : ℕ) (vs : List Vec3)
    (ts ts2 : List (List ℕ)) (c : Vec3)
    (hp : parse_input lines = some (P, vs, T, ts))
    (hc : compute_centroid vs P = some c)
    (hcor : correctTriangles vs c ts = some ts2) :
    runPipeline lines precision = write_output P vs T ts2 precision ∧
    ts2.length = ts.length ∧
    ∀ (i : ℕ) (t2 : List ℕ), ts2[i]? = some t2 →
      ∃ t, ts[i]? = some t ∧ (t2 = t ∨ swap12 t = some t2) := by
  refine ⟨?_, mapOption_length _ ts ts2 hcor, ?_⟩
  · simp only [runPipeline, Option.bind_eq_bind, Option.pure_def, hp,
      Option.some_bind, hc, hcor]
  · intro i t2 ht2
    obtain ⟨t, ht, hct⟩ := mapOption_get_rev _ ts ts2 hcor i t2 ht2
    exact ⟨t, ht, correctTriangle_unchanged_or_swapped vs c t t2 hct⟩

/-- Witness for C9: a one-point, one-triangle run; the degenerate triangle
(0,0,0) is swapped in place and everything else reaches the writer
unchanged. -/
theorem c9_correction_frame_witness :
    runPipeline ["1", "5 0 0", "1", "0 0 0"] 1
      = write_output 1 [⟨(1 : ℚ) * ((5 : ℕ) : ℚ), (1 : ℚ) * ((0 : ℕ) : ℚ), (1 : ℚ) * ((0 : ℕ) : ℚ)⟩]
          1 [[0, 0, 0]] 1 := by
  refine (c9_correction_frame ["1", "5 0 0", "1", "0 0 0"] 1 1 1
    [⟨(1 : ℚ) * ((5 : ℕ) : ℚ), (1 : ℚ) * ((0 : ℕ) : ℚ), (1 : ℚ) * ((0 : ℕ) : ℚ)⟩]
    [[0, 0, 0]] [[0, 0, 0]] ⟨5, 0, 0⟩ (by rfl) ?_ ?_).1
  · norm_num [compute_centroid, foldlMOpt, List.range, List.range.loop,
      Vec3.zero, Vec3.add, Vec3.divN]
  · norm_num [correctTriangles, mapOption, correctTriangle,
      compute_triangle_norm_vec_direction, orientationScalar, Vec3.cross, Vec3.sub,
      Vec3.dot, swap12]

/-! ## Claim theorem: writer bounds and omission of extra triangles (C10) -/

/-- The append loop succeeds when the line of every visited index exists. -/
theorem appendLinesOpt_some (g : ℕ → Option String) :
    ∀ idxs : List ℕ, (∀ i ∈ idxs, (g i).isSome) → ∀ s : String,
      ∃ s2, appendLinesOpt g s idxs = some s2 := by
  intro idxs
  induction idxs with
  | nil => intro _ s; exact ⟨s, rfl⟩
  | cons i is ih =>
    intro h s
    obtain ⟨line, hline⟩ := Option.isSome_iff_exists.mp (h i (by simp))
    obtain ⟨s2, hs2⟩ := ih (fun j hj => h j (by simp [hj])) (s ++ line)
    refine ⟨s2, ?_⟩
    simp only [appendLinesOpt, foldlMOpt_cons, hline, Option.some_bind]
    simp only [appendLinesOpt] at hs2
    exact hs2

/-- The append loop depends only on the lines of the visited indices. -/
theorem appendLinesOpt_congr (g1 g2 : ℕ → Option String) :
    ∀ idxs : List ℕ, (∀ i ∈ idxs, g1 i = g2 i) → ∀ s : String,
      appendLinesOpt g1 s idxs = appendLinesOpt g2 s idxs := by
  intro idxs
  induction idxs with
  | nil => intro _ s; rfl
  | cons i is ih =>
    intro h s
    simp only [appendLinesOpt, foldlMOpt_cons]
    rw [h i (by simp)]
    cases g2 i with
    | none => rfl
    | some line =>
      simp only [Option.some_bind]
      have := ih (fun j hj => h j (by simp [hj])) (s ++ line)
      simp only [appendLinesOpt] at this
      exact this

/-- C10: `write_output` emits exactly the declared `n_triangles` triangle
lines, indexing the triangle list by `0..n_triangles`; parsed triangles
beyond the declared count are silently omitted, and the writer stays in
bounds (succeeds) when at least `n_triangles` triangles are present and
each has at least three indices (and the declared point count is covered
by the vertex list). -/
theorem c10_write_output_bounds (P T precision : ℕ) (vs : List Vec3) (ts : List (List ℕ))
    (hP : P ≤ vs.length) (_hT : T ≤ ts.length)
    (h3 : ∀ i, i < T → ∃ t, ts[i]? = some t ∧ 3 ≤ t.length) :
    (∃ s, write_output P vs T ts precision = some s) ∧
    write_output P vs T ts precision = write_output P vs T (ts.take T) precision := by
  have hgv : ∀ i ∈ List.range P,
      ((vs[i]?).bind (fun p => some (vertexLineOut precision p))).isSome := by
    intro i hi
    have hlt : i < vs.length := lt_of_lt_of_le (List.mem_range.mp hi) hP
    rw [List.getElem?_eq_getElem hlt]
    rfl
  have hgt : ∀ i ∈ List.range T, ((ts[i]?).bind triangleLineOut).isSome := by
    intro i hi
    obtain ⟨t, ht, hlen⟩ := h3 i (List.mem_range.mp hi)
    have h0 : (0 : ℕ) < t.length := by omega
    have h1 : (1 : ℕ) < t.length := by omega
    have h2 : (2 : ℕ) < t.length := by omega
    rw [ht]
    simp [triangleLineOut, List.getElem?_eq_getElem, h0, h1, h2]
  obtain ⟨s1, hs1⟩ := appendLinesOpt_some _ (List.range P) hgv (toString P ++ "\n")
  obtain ⟨s3, hs3⟩ := appendLinesOpt_some _ (List.range T) hgt (s1 ++ toString T ++ "\n")
  have heq : ∀ s : String,
      appendLinesOpt (fun i => (ts[i]?).bind triangleLineOut) s (List.range T)
        = appendLinesOpt (fun i => ((ts.take T)[i]?).bind triangleLineOut) s
            (List.range T) := by
    refine appendLinesOpt_congr _ _ (List.range T) (fun i hi => ?_)
    rw [List.getElem?_take, if_pos (List.mem_range.mp hi)]
  constructor
  · refine ⟨s3, ?_⟩
    simp only [write_output, Option.bind_eq_bind, Option.pure_def, hs1,
      Option.some_bind, hs3]
  · simp only [write_output, Option.bind_eq_bind, Option.pure_def, hs1,
      Option.some_bind]
    rw [← heq (s1 ++ toString T ++ "\n")]

/-- Witness for C10: with one declared triangle and a second parsed
triangle beyond the count, the writer output ignores the extra entry. -/
theorem c10_write_output_bounds_witness :
    write_output 1 [⟨0, 1, 2⟩] 1 [[0, 1, 2], [7, 8, 9]] 1
      = write_output 1 [⟨0, 1, 2⟩] 1 [[0, 1, 2]] 1 := by
  have h := (c10_write_output_bounds 1 1 1 [⟨0, 1, 2⟩] [[0, 1, 2], [7, 8, 9]]
    (by norm_num) (by norm_num)
    (fun i hi => by
      have hi0 : i = 0 := by omega
      subst hi0
      exact ⟨[0, 1, 2], rfl, by norm_num⟩)).2
  rw [show List.take 1 [[0, 1, 2], [7, 8, 9]] = [[0, 1, 2]] from rfl] at h
  exact h

/-! ## Claim theorems: writer coordinate bug (C1), zero-vertex mesh (C2) -/

/-- C1 (code bug): a vertex line does not carry the coordinates x, y, z —
the source formats `point_coords[i].x` three times, so the vertex
(0, 1, 2) is written as the line 0.0 0.0 0.0 at precision 1, the output is
entirely independent of the y and z components, and the line the claim
requires is never produced. -/
theorem c1_vertex_line_repeats_x :
    write_output 1 [⟨0, 1, 2⟩] 0 [] 1 = some ("1\n0.0 0.0 0.0\n0\n") ∧
    write_output 1 [⟨0, 1, 2⟩] 0 [] 1 = write_output 1 [⟨0, 9, 9⟩] 0 [] 1 ∧
    write_output 1 [⟨0, 1, 2⟩] 0 [] 1 ≠ some ("1\n0.0 1.0 2.0\n0\n") :=
  ⟨rfl, rfl, by decide⟩

/-- C2 (code bug): a resource declaring 0 points is not rejected — the
pipeline proceeds through the centroid division by zero (NaN in the Rust
`f64` run, the zero vector in this rational model; the value is never
consumed because there is no vertex line and no triangle to orient) and
terminates normally, writing the output resource. -/
theorem c2_zero_vertices_not_rejected :
    runPipeline ["0", "0"] 1 = some ("0\n0\n") := rfl
